import Mathlib

set_option maxRecDepth 100000

/-!
Verification of the core logic of the Azure CIDR Analyzer extension
(`src/modules/azureCidrAnalyzer.ts` and `src/helpers/exporter.ts`):
the Resource Graph query builder, the subscription resolver, the
per-subscription fan-out loop, the column collector and the CSV renderer.

Strings are modelled by Lean `String` (a list of unicode scalar chars);
JavaScript's single-character global regex replaces are modelled as
per-character expansions, and literal-string global replace is modelled
by a leftmost non-overlapping scan, matching the semantics of
`String.prototype.replace` with a `g` flag.  `toLowerCase` is modelled
on the ASCII range (the only range relevant to the analysis: all facts
used about it are that it is the identity off `A`-`Z` and maps `A`-`Z`
into `a`-`z`).
-/

namespace AzureCidr

/-- The apostrophe character (used in KQL string literals). -/
def sq : Char := Char.ofNat 39

/-- Opening curly brace character. -/
def lbrace : Char := Char.ofNat 123

/-- Closing curly brace character. -/
def rbrace : Char := Char.ofNat 125

/-- ASCII-range model of JavaScript `toLowerCase` on one character. -/
def toLowerChar (c : Char) : Char :=
  if 65 ≤ c.toNat ∧ c.toNat ≤ 90 then Char.ofNat (c.toNat + 32) else c

/-- Model of `s.toLowerCase()`. -/
def strToLower (s : String) : String := String.mk (s.data.map toLowerChar)

/-- Model of a single-character-class global regex replace: each character
is expanded independently. -/
def mapChars (f : Char → List Char) (s : String) : String :=
  String.mk ((s.data.map f).flatten)

/-- `xs` starts with `ps`. -/
def listStartsWith : List Char → List Char → Bool
  | [], _ => true
  | _ :: _, [] => false
  | p :: ps, c :: t => p = c && listStartsWith ps t

/-- Leftmost, non-overlapping global replacement of the literal pattern
`p :: ps` by `rep` (model of `value.replace(new RegExp(lit, 'g'), rep)`
for a literal pattern). -/
def replAllAux (p : Char) (ps rep : List Char) : List Char → List Char
  | [] => []
  | c :: t =>
    if listStartsWith (p :: ps) (c :: t) then
      rep ++ replAllAux p ps rep (t.drop ps.length)
    else
      c :: replAllAux p ps rep t
termination_by l => l.length
decreasing_by
  · simp only [List.length_cons, List.length_drop]
    omega
  · simp

/-- Global literal-string replace on `String`s. -/
def replAllStr (pat rep s : String) : String :=
  match pat.data with
  | [] => s
  | p :: ps => String.mk (replAllAux p ps rep.data s.data)

/-- Model of `Array.prototype.join(sep)`. -/
def joinSep (s : String) : List String → String
  | [] => ""
  | [a] => a
  | a :: b :: l => a ++ s ++ joinSep s (b :: l)

/-- Iteration of a JS `Set` being filled from a list: keep the first
occurrence of each element, tracking the already-seen ones. -/
def dedupAux (seen : List String) : List String → List String
  | [] => []
  | c :: t => if c ∈ seen then dedupAux seen t else c :: dedupAux (c :: seen) t

/-- Insertion-order deduplication, the semantics of
`Array.from(new Set(list))` for a list of strings. -/
def dedupFirst (l : List String) : List String := dedupAux [] l

/-- `Array.from(new Set(cidrs.map(c => c.toLowerCase()).filter(Boolean)))`
(the `lower` list of `buildResourceGraphQuery`). -/
def lowerList (cidrs : List String) : List String :=
  dedupFirst ((cidrs.map strToLower).filter (fun c => c ≠ ""))

/-- `c.includes('*')`. -/
def hasStar (s : String) : Bool := s.data.any (fun c => c = '*')

/-- `lower.filter(c => !c.includes('*'))`. -/
def exactMatches (cidrs : List String) : List String :=
  (lowerList cidrs).filter (fun c => !hasStar c)

/-- `lower.filter(c => c.includes('*'))`. -/
def wildcardMatches (cidrs : List String) : List String :=
  (lowerList cidrs).filter (fun c => hasStar c)

/-- `c.replace(/'/g, "\\'")`. -/
def escQuote : String → String :=
  mapChars (fun c => if c = sq then ['\\', sq] else [c])

/-- A single-quoted KQL string literal with escaped quotes. -/
def quoteLit (c : String) : String :=
  String.mk [sq] ++ escQuote c ++ String.mk [sq]

/-- The characters of the character class `[.+?^${}()|[\]\\]` escaped by
`toRegex`. -/
def metaChars : List Char :=
  ['.', '+', '?', '^', '$', lbrace, rbrace, '(', ')', '|', '[', ']', '\\']

/-- The `__WILDCARD__` placeholder of `toRegex`. -/
def placeholderStr : String := "__WILDCARD__"

/-- `value.replace(/\*/g, placeholder)`. -/
def starToPlaceholder : String → String :=
  mapChars (fun c => if c = '*' then placeholderStr.data else [c])

/-- `withPlaceholder.replace(/[.+?^${}()|[\]\\]/g, '\\$&')` (with the
braces written via their codes). -/
def escapeMeta : String → String :=
  mapChars (fun c => if c ∈ metaChars then ['\\', c] else [c])

/-- The `toRegex` closure inside `buildResourceGraphQuery`. -/
def toRegex (value : String) : String :=
  let withPlaceholder := starToPlaceholder value
  let escaped := escapeMeta withPlaceholder
  let regexBody := replAllStr placeholderStr ".*" escaped
  let anchored := "^" ++ regexBody ++ "$"
  String.mk [sq] ++ escQuote anchored ++ String.mk [sq]

/-- The `prefixStr in~ (...)` membership clause over the exact tokens. -/
def exactClause (cidrs : List String) : String :=
  "prefixStr in~ (" ++ joinSep ", " ((exactMatches cidrs).map quoteLit) ++ ")"

/-- The ` or `-joined wildcard regex conditions. -/
def wildcardClause (cidrs : List String) : String :=
  joinSep " or "
    ((wildcardMatches cidrs).map (fun v => "prefixStr matches regex " ++ toRegex v))

/-- The `clauses` array of `buildResourceGraphQuery`: the exact-match
clause is pushed first (when present), then the wildcard clause. -/
def clauses (cidrs : List String) : List String :=
  (if (exactMatches cidrs).isEmpty then [] else [exactClause cidrs]) ++
  (if (wildcardMatches cidrs).isEmpty then [] else [wildcardClause cidrs])

/-- `filterClause = clauses.length ? '\n| where ...' : ''`. -/
def filterClause (cidrs : List String) : String :=
  if (clauses cidrs).isEmpty then ""
  else "\n| where " ++ joinSep " or " (clauses cidrs)

/-- The fixed query text up to (and including)
`| extend prefixStr = tolower(tostring(prefix))`. -/
def queryHeader : String :=
  "Resources\n| where type in~ (\x27microsoft.network/virtualnetworks\x27, \x27microsoft.network/virtualnetworks/subnets\x27, \x27microsoft.network/publicipprefixes\x27, \x27microsoft.network/ipgroups\x27)\n| extend prefixes = case(\n    type =~ \x27microsoft.network/virtualnetworks\x27, properties.addressSpace.addressPrefixes,\n    type =~ \x27microsoft.network/virtualnetworks/subnets\x27, coalesce(properties.addressPrefixes, pack_array(properties.addressPrefix)),\n    type =~ \x27microsoft.network/publicipprefixes\x27, pack_array(properties.ipPrefix),\n    type =~ \x27microsoft.network/ipgroups\x27, properties.ipAddresses,\n    dynamic([])\n  )\n| mv-expand prefix = prefixes\n| where isnotempty(prefix)\n| extend prefixStr = tolower(tostring(prefix))"

/-- The fixed `| project ...` tail of the query. -/
def queryFooter : String :=
  "\n| project name, type, location, resourceGroup, subscriptionId, prefixStr, id"

/-- `buildResourceGraphQuery` of `azureCidrAnalyzer.ts`. -/
def buildResourceGraphQuery (cidrs : List String) : String :=
  queryHeader ++ filterClause cidrs ++ queryFooter

/-- Model of a JSON-shaped JavaScript value appearing in a Resource Graph
row.  A number carries its `String(value)` image. -/
inductive JValue where
  | null : JValue
  | bool (b : Bool) : JValue
  | num (lit : String) : JValue
  | str (s : String) : JValue
  | arr (items : List JValue) : JValue
  | obj (fields : List (String × JValue)) : JValue

/-- A `GraphResult` row: key/value pairs in object-insertion order. -/
abbrev Row := List (String × JValue)

/-- Hexadecimal digit (lower-case), for JSON control-character escapes. -/
def hexDigit (n : Nat) : Char :=
  if n < 10 then Char.ofNat (48 + n) else Char.ofNat (87 + n)

/-- JSON escaping of one character inside a string literal. -/
def jsonEscapeChar (c : Char) : List Char :=
  if c = '"' then ['\\', '"']
  else if c = '\\' then ['\\', '\\']
  else if c = Char.ofNat 8 then ['\\', 'b']
  else if c = Char.ofNat 9 then ['\\', 't']
  else if c = Char.ofNat 10 then ['\\', 'n']
  else if c = Char.ofNat 12 then ['\\', 'f']
  else if c = Char.ofNat 13 then ['\\', 'r']
  else if c.toNat < 32 then
    ['\\', 'u', '0', '0', hexDigit (c.toNat / 16), hexDigit (c.toNat % 16)]
  else [c]

/-- A JSON string literal. -/
def jsonStr (s : String) : String :=
  "\"" ++ String.mk ((s.data.map jsonEscapeChar).flatten) ++ "\""

/-- Model of `JSON.stringify`. -/
def stringify : JValue → String
  | .null => "null"
  | .bool b => if b then "true" else "false"
  | .num lit => lit
  | .str s => jsonStr s
  | .arr items =>
    "[" ++ joinSep "," (items.attach.map (fun x => stringify x.1)) ++ "]"
  | .obj fields =>
    String.mk [lbrace] ++
      joinSep ","
        (fields.attach.map (fun x => jsonStr x.1.1 ++ ":" ++ stringify x.1.2)) ++
      String.mk [rbrace]
decreasing_by
  · have hx := List.sizeOf_lt_of_mem x.2
    simp only [JValue.arr.sizeOf_spec]
    omega
  · have hx := List.sizeOf_lt_of_mem x.2
    have h2 : sizeOf x.1.2 < sizeOf x.1 := by
      obtain ⟨x, hmem⟩ := x
      obtain ⟨a, b⟩ := x
      simp
    simp only [JValue.obj.sizeOf_spec]
    omega

/-- `row[col]`: the value of the first (only) field with that key. -/
def rowGet (row : Row) (col : String) : Option JValue :=
  (row.find? (fun e => e.1 = col)).map (fun e => e.2)

/-- `str.replace(/"/g, '""')`. -/
def escDQ : String → String :=
  mapChars (fun c => if c = '"' then ['"', '"'] else [c])

/-- A double-quoted CSV field with doubled embedded quotes. -/
def quoteField (s : String) : String := "\"" ++ escDQ s ++ "\""

/-- One CSV cell of the `exportCsv` handler: missing / `null` values
render as `""`, object values are `JSON.stringify`'d, other values are
`String(...)`'d; the result is quoted with doubled quotes. -/
def csvCell (row : Row) (col : String) : String :=
  match rowGet row col with
  | none => "\"\""
  | some JValue.null => "\"\""
  | some (JValue.bool b) => quoteField (if b then "true" else "false")
  | some (JValue.num lit) => quoteField lit
  | some (JValue.str s) => quoteField s
  | some (JValue.arr items) => quoteField (stringify (JValue.arr items))
  | some (JValue.obj fields) => quoteField (stringify (JValue.obj fields))

/-- The unquoted text a standard CSV parser should recover from
`csvCell row col`. -/
def cellRaw (row : Row) (col : String) : String :=
  match rowGet row col with
  | none => ""
  | some JValue.null => ""
  | some (JValue.bool b) => if b then "true" else "false"
  | some (JValue.num lit) => lit
  | some (JValue.str s) => s
  | some (JValue.arr items) => stringify (JValue.arr items)
  | some (JValue.obj fields) => stringify (JValue.obj fields)

/-- The CSV header line (without the trailing newline added at the call
site of `exportCsv`). -/
def csvHeader (columns : List String) : String :=
  joinSep "," (columns.map quoteField)

/-- One CSV body line for a row. -/
def csvLine (row : Row) (columns : List String) : String :=
  joinSep "," (columns.map (csvCell row))

/-- The CSV body: one line per row, in row order. -/
def csvBody (rows : List Row) (columns : List String) : String :=
  joinSep "\n" (rows.map (fun row => csvLine row columns))

/-- `Object.keys(row)`. -/
def rowKeys (r : Row) : List String := r.map Prod.fst

/-- Insertion into a JS `Set` modelled as an insertion-ordered list. -/
def insertKey (acc : List String) (k : String) : List String :=
  if k ∈ acc then acc else acc ++ [k]

/-- The insertion-ordered key set accumulated by `collectColumns`. -/
def collectKeys (rows : List Row) : List String :=
  rows.foldl (fun acc r => (rowKeys r).foldl insertKey acc) []

/-- Lexicographic (code-point) comparison of character lists, the order
used by JavaScript's default `Array.prototype.sort` on strings. -/
def charsLe : List Char → List Char → Bool
  | [], _ => true
  | _ :: _, [] => false
  | a :: as, b :: bs =>
    if a.toNat < b.toNat then true
    else if b.toNat < a.toNat then false
    else charsLe as bs

/-- Lexicographic string comparison. -/
def strLe (a b : String) : Bool := charsLe a.data b.data

/-- `collectColumns` of `azureCidrAnalyzer.ts`: union of keys, sorted. -/
def collectColumns (rows : List Row) : List String :=
  (collectKeys rows).insertionSort (fun a b => strLe a b = true)

/-- A subscription catalog entry. -/
structure SubscriptionInfo where
  id : String
  name : Option String := none
deriving DecidableEq

/-- Lookup in a JS `Map` built from an entries list: a later entry with
the same key overwrites an earlier one. -/
def jsMapGet (entries : List (String × SubscriptionInfo)) (k : String) :
    Option SubscriptionInfo :=
  entries.foldl (fun acc e => if e.1 = k then some e.2 else acc) none

/-- The requested-id loop of `resolveSubscriptions`, carrying the `seen`
set of lower-cased keys. -/
def resolveLoop (byId : List (String × SubscriptionInfo)) (seen : List String) :
    List String → List SubscriptionInfo
  | [] => []
  | raw :: t =>
    let key := strToLower raw
    if key ∈ seen then resolveLoop byId seen t
    else
      (match jsMapGet byId key with
       | some m => m
       | none => { id := raw }) :: resolveLoop byId (key :: seen) t

/-- `resolveSubscriptions`, given the catalog `all` that
`listSubscriptions` returned (or had cached) for the credential. -/
def resolveSubscriptionsPure (all : List SubscriptionInfo) (requested : List String) :
    List SubscriptionInfo :=
  if requested.isEmpty then all
  else resolveLoop (all.map (fun sub => (strToLower sub.id, sub))) [] requested

/-- Messages posted to the webview. -/
inductive OutMsg where
  | setLoading (value : Bool)
  | subscriptionOptions (subscriptions : List SubscriptionInfo)
  | initSubscriptions (subscriptions : List (String × Option String))
  | statusRunning (subscriptionId : String)
  | statusDone (subscriptionId : String) (count : Nat)
  | statusError (subscriptionId : String) (message : String)
  | displayResults (cidrs : List String) (results : List Row) (columns : List String)
  | showInfo (message : String)
  | showError (message : String)

/-- Observable effects of the message handler. -/
inductive Effect where
  | post (m : OutMsg)
  | windowError (message : String)
  | windowWarning (message : String)
  | writeCsv (moduleName baseFileName csvContent csvHeaderArg : String)

/-- JavaScript `trim` whitespace test (common whitespace subset). -/
def isJsWS (c : Char) : Bool :=
  c = ' ' || c = Char.ofNat 9 || c = Char.ofNat 10 ||
  c = Char.ofNat 11 || c = Char.ofNat 12 || c = Char.ofNat 13

/-- Model of `s.trim()`. -/
def trimStr (s : String) : String :=
  String.mk (((s.data.dropWhile isJsWS).reverse.dropWhile isJsWS).reverse)

/-- `message.cidr.split(/[,\n]/)`. -/
def splitOnCommaNl (s : String) : List String :=
  (s.data.splitOnP (fun c => c = ',' || c = Char.ofNat 10)).map String.mk

/-- The `cidrs` list of the lookup handler. -/
def parseCidrList (s : String) : List String :=
  ((splitOnCommaNl s).map trimStr).filter (fun x => x ≠ "")

/-- Rows contributed by one subscription's query outcome. -/
def okRows : Except String (List Row) → List Row
  | .ok hits => hits
  | .error _ => []

/-- Status events emitted for one subscription. -/
def subEvents (oracle : String → Except String (List Row)) (s : SubscriptionInfo) :
    List OutMsg :=
  OutMsg.statusRunning s.id ::
    (match oracle s.id with
     | .ok hits => [OutMsg.statusDone s.id hits.length]
     | .error e => [OutMsg.statusError s.id e])

/-- The sequential per-subscription loop of the lookup handler: the
emitted status events and the accumulated `lastResults`. -/
def runSubs (oracle : String → Except String (List Row)) :
    List SubscriptionInfo → List OutMsg × List Row
  | [] => ([], [])
  | s :: t =>
    let rest := runSubs oracle t
    (subEvents oracle s ++ rest.1, okRows (oracle s.id) ++ rest.2)

/-- The summary text posted as `showInfo` after a lookup. -/
def summaryText (cidrs : List String) (results : List Row) : String :=
  if results.length ≠ 0 then
    "Search completed. Found " ++ toString results.length ++ " matching entr" ++
      (if results.length = 1 then "y" else "ies") ++ "."
  else
    "Search completed. No matches found for " ++ joinSep ", " cidrs ++ "."

/-- The retained panel state: the `lastResults` buffer. -/
structure PanelState where
  lastResults : List Row

/-- Effects of the `catch` block of the lookup handler. -/
def lookupErrorEffects (msg : String) : List Effect :=
  [Effect.windowError ("Azure CIDR Analyzer error: " ++ msg),
   Effect.post (OutMsg.showError msg)]

/-- The `lookupCidr` message handler.  Network interactions are abstracted
by two oracles: `catalog` is the outcome of `listSubscriptions` (its
thrown errors becoming `.error`), and `oracle` gives the outcome of
`queryAzureForCidrs` for each single-subscription query. -/
def handleLookup (st : PanelState) (cidrField : String) (subsField : Option (List String))
    (cfgToken : String) (catalog : Except String (List SubscriptionInfo))
    (oracle : String → Except String (List Row)) : PanelState × List Effect :=
  let cidrs := parseCidrList cidrField
  let requested := ((subsField.getD []).map trimStr).filter (fun x => x ≠ "")
  let token := trimStr cfgToken
  let inner : PanelState × List Effect :=
    if token = "" then
      (st, lookupErrorEffects
        "Configure an Azure Resource Graph token in the Azure CIDR Analyzer settings first.")
    else
      match catalog with
      | .error e => (st, lookupErrorEffects e)
      | .ok all =>
        let subscriptions := resolveSubscriptionsPure all requested
        if subscriptions.isEmpty then
          (st, lookupErrorEffects "No subscriptions available for the current token.")
        else
          let loop := runSubs oracle subscriptions
          let columns := collectColumns loop.2
          ( { lastResults := loop.2 },
            Effect.post (OutMsg.initSubscriptions
              (subscriptions.map (fun sub => (sub.id, sub.name)))) ::
            loop.1.map Effect.post ++
            [Effect.post (OutMsg.displayResults cidrs loop.2 columns),
             Effect.post (OutMsg.showInfo (summaryText cidrs loop.2))] )
  (inner.1,
   Effect.post (OutMsg.setLoading true) :: inner.2 ++ [Effect.post (OutMsg.setLoading false)])

/-- The `exportCsv` message handler. -/
def handleExport (st : PanelState) : PanelState × List Effect :=
  if st.lastResults.isEmpty then
    (st, [Effect.windowWarning "No results to export yet. Run a search first.",
          Effect.post (OutMsg.showInfo "Run a search to export results.")])
  else
    let columns := collectColumns st.lastResults
    (st, [Effect.writeCsv "microsoft-azure-cidr-analyzer" "azure-cidr-results"
            (csvBody st.lastResults columns) (csvHeader columns ++ "\n")])

/-- Inside a quoted CSV field: consume up to the closing quote, decoding
doubled quotes. -/
def parseFieldBody : List Char → Option (List Char × List Char)
  | [] => none
  | c :: t =>
    if c = '"' then
      match t with
      | c2 :: t2 =>
        if c2 = '"' then (parseFieldBody t2).map (fun r => ('"' :: r.1, r.2))
        else some ([], t)
      | [] => some ([], [])
    else (parseFieldBody t).map (fun r => (c :: r.1, r.2))

/-- Parse one quoted CSV field, returning its decoded content and the
remaining input. -/
def parseField : List Char → Option (List Char × List Char)
  | [] => none
  | c :: t => if c = '"' then parseFieldBody t else none

/-- Parse a line of comma-separated quoted CSV fields (fuelled). -/
def parseLineAux : Nat → List Char → Option (List (List Char))
  | 0, _ => none
  | fuel + 1, s =>
    match parseField s with
    | none => none
    | some (f, rest) =>
      match rest with
      | [] => some [f]
      | c :: t => if c = ',' then (parseLineAux fuel t).map (fun fs => f :: fs) else none

/-- A standard CSV parser for one line of quoted fields. -/
def parseCsvLine (s : String) : Option (List String) :=
  (parseLineAux (s.length + 1) s.data).map (fun fs => fs.map String.mk)

/-- Spec-side description of the wildcard translation, per character of
the lower-cased filter: `*` becomes `.*`, regex metacharacters and the
quote are backslash-escaped, anything else is copied. -/
def wcSpecChar (c : Char) : List Char :=
  if c = '*' then ['.', '*']
  else if c ∈ metaChars then ['\\', c]
  else if c = sq then ['\\', sq]
  else [c]

/-- Spec-side wildcard predicate literal: quoted, anchored (`^...$`)
per-character translation of the filter. -/
def specWildcardRegex (v : String) : String :=
  String.mk ([sq, '^'] ++ (v.data.map wcSpecChar).flatten ++ ['$', sq])

/-- Escaping of one character by the metacharacter pass of `toRegex`. -/
def escSeg (c : Char) : List Char := if c ∈ metaChars then ['\\', c] else [c]

/-- The contribution of one input character to the intermediate string
of `toRegex` after the placeholder and escaping passes. -/
def wcSeg (c : Char) : List Char :=
  if c = '*' then placeholderStr.data else escSeg c

/-- The contribution of one input character to the regex body after the
placeholder has been replaced by `.*`. -/
def wcMid (c : Char) : List Char := if c = '*' then ['.', '*'] else escSeg c

/-- Spec-side first-occurrence deduplication under case-insensitive
comparison. -/
def dedupByLower : List String → List String
  | [] => []
  | r :: t => r :: dedupByLower (t.filter (fun x => strToLower x ≠ strToLower r))
termination_by l => l.length
decreasing_by
  simp only [List.length_cons]
  exact Nat.lt_succ_of_le (List.length_filter_le _ _)

/-- Spec-side catalog lookup: the catalog entry whose id matches the
requested id case-insensitively (the last one, matching the overwrite
semantics of a JS `Map` built from an entries array). -/
def catalogLookup (all : List SubscriptionInfo) (raw : String) :
    Option SubscriptionInfo :=
  all.reverse.find? (fun s => strToLower s.id = strToLower raw)

/-- Is this outgoing message a `running` status for `sid`? -/
def isRunningFor (sid : String) : OutMsg → Bool
  | .statusRunning i => i = sid
  | _ => false

/-- Is this outgoing message an `error` status for `sid` with message `m`? -/
def isErrorFor (sid m : String) : OutMsg → Bool
  | .statusError i mm => i = sid && mm = m
  | _ => false

/-- Is this outgoing message any `error` status for `sid`? -/
def isErrorAny (sid : String) : OutMsg → Bool
  | .statusError i _ => i = sid
  | _ => false

/-- Is this outgoing message a `done` status for `sid` with count `c`? -/
def isDoneFor (sid : String) (c : Nat) : OutMsg → Bool
  | .statusDone i n => i = sid && n = c
  | _ => false

/-- Is this outgoing message any `done` status for `sid`? -/
def isDoneAny (sid : String) : OutMsg → Bool
  | .statusDone i _ => i = sid
  | _ => false

/-- The messages posted to the webview among a list of effects. -/
def postedMsgs (effs : List Effect) : List OutMsg :=
  effs.filterMap (fun e => match e with | .post m => some m | _ => none)

/-- Failure-isolation specification for a lookup outcome `out`, given
the per-subscription query oracle, the resolved subscription list, one
failing subscription `sub` and its error message `m`:
the failing subscription gets exactly one `error` status event and it
carries `m`; every resolved subscription gets exactly one `running`
event (all are attempted); the retained results are exactly the
concatenation, in resolved order, of the successful subscriptions' rows;
those aggregated rows are displayed; and every successful subscription
gets exactly one `done` event, with its row count. -/
def isolationSpec (oracle : String → Except String (List Row))
    (subs : List SubscriptionInfo) (sub : SubscriptionInfo) (m : String)
    (out : PanelState × List Effect) : Prop :=
  (postedMsgs out.2).countP (isErrorFor sub.id m) = 1 ∧
  (postedMsgs out.2).countP (isErrorAny sub.id) = 1 ∧
  (∀ s ∈ subs, (postedMsgs out.2).countP (isRunningFor s.id) = 1) ∧
  out.1.lastResults = (subs.map (fun s => okRows (oracle s.id))).flatten ∧
  (∃ cs cols, OutMsg.displayResults cs out.1.lastResults cols ∈ postedMsgs out.2) ∧
  (∀ s ∈ subs, ∀ rows, oracle s.id = Except.ok rows →
    (postedMsgs out.2).countP (isDoneFor s.id rows.length) = 1 ∧
    (postedMsgs out.2).countP (isDoneAny s.id) = 1)

/-- A concrete two-subscription catalog, for witnesses. -/
def demoCatalog : List SubscriptionInfo := [⟨"a", some "A"⟩, ⟨"b", none⟩]

/-- A concrete query oracle: subscription `a` succeeds with one row,
every other subscription fails with `boom`. -/
def demoOracle : String → Except String (List Row) :=
  fun i =>
    if i = "a" then Except.ok [[("prefixStr", JValue.str "10.0.0.0/24")]]
    else Except.error "boom"

/-! ## Character and dedup helper lemmas -/

theorem toNat_charOfNat (n : Nat) (h : n < 55296) : (Char.ofNat n).toNat = n := by
  simp [Char.ofNat, Nat.isValidChar, h, Char.toNat, Char.ofNatAux, UInt32.toNat,
    BitVec.toNat_ofNatLt]

theorem toNat_toLowerChar (c : Char) :
    (toLowerChar c).toNat =
      if 65 ≤ c.toNat ∧ c.toNat ≤ 90 then c.toNat + 32 else c.toNat := by
  unfold toLowerChar
  by_cases h : 65 ≤ c.toNat ∧ c.toNat ≤ 90
  · rw [if_pos h, if_pos h]
    exact toNat_charOfNat _ (by omega)
  · rw [if_neg h, if_neg h]

theorem toLowerChar_notUpper (c : Char) :
    ¬(65 ≤ (toLowerChar c).toNat ∧ (toLowerChar c).toNat ≤ 90) := by
  rw [toNat_toLowerChar]
  by_cases h : 65 ≤ c.toNat ∧ c.toNat ≤ 90
  · rw [if_pos h]; rintro ⟨h1, h2⟩; omega
  · rw [if_neg h]; exact h

theorem toLowerChar_ne_of_upper (c target : Char)
    (ht : 65 ≤ target.toNat ∧ target.toNat ≤ 90) : toLowerChar c ≠ target := by
  intro he
  exact toLowerChar_notUpper c (he ▸ ht)

theorem mem_dedupAux (l : List String) :
    ∀ (seen : List String) (x : String),
      x ∈ dedupAux seen l ↔ x ∈ l ∧ x ∉ seen := by
  induction l with
  | nil => simp [dedupAux]
  | cons c t ih =>
    intro seen x
    simp only [dedupAux]
    split
    · next hc =>
      rw [ih]
      simp only [List.mem_cons]
      constructor
      · rintro ⟨hx, hs⟩
        exact ⟨Or.inr hx, hs⟩
      · rintro ⟨(rfl | hx), hs⟩
        · exact absurd hc hs
        · exact ⟨hx, hs⟩
    · next hc =>
      simp only [List.mem_cons, ih]
      constructor
      · rintro (rfl | ⟨hx, hs⟩)
        · exact ⟨Or.inl rfl, hc⟩
        · exact ⟨Or.inr hx, fun hxx => hs (Or.inr hxx)⟩
      · rintro ⟨(rfl | hx), hs⟩
        · exact Or.inl rfl
        · by_cases hxc : x = c
          · exact Or.inl hxc
          · refine Or.inr ⟨hx, ?_⟩
            simp [List.mem_cons, hxc, hs]

theorem nodup_dedupAux (l : List String) :
    ∀ seen : List String, (dedupAux seen l).Nodup := by
  induction l with
  | nil => intro seen; simp [dedupAux]
  | cons c t ih =>
    intro seen
    simp only [dedupAux]
    split
    · exact ih seen
    · refine List.Nodup.cons ?_ (ih (c :: seen))
      intro hmem
      rw [mem_dedupAux] at hmem
      exact hmem.2 (List.mem_cons_self c seen)

theorem mem_dedupFirst (l : List String) (x : String) :
    x ∈ dedupFirst l ↔ x ∈ l := by
  rw [dedupFirst, mem_dedupAux]
  simp

theorem nodup_dedupFirst (l : List String) : (dedupFirst l).Nodup :=
  nodup_dedupAux l []

/-! ## C6: empty filter list -/

theorem lowerList_nil_of_empty (cidrs : List String) (h : ∀ c ∈ cidrs, c = "") :
    lowerList cidrs = [] := by
  unfold lowerList
  have hf : (cidrs.map strToLower).filter (fun c => c ≠ "") = [] := by
    rw [List.filter_eq_nil_iff]
    intro a ha
    rw [List.mem_map] at ha
    obtain ⟨c, hc, rfl⟩ := ha
    have hc0 := h c hc
    subst hc0
    simp [strToLower]
  rw [hf]
  rfl

/-- C6: for a filter list that is empty or contains only empty strings,
the filter clause is the empty string and the query is exactly the fixed
unconditional scan-and-project text. -/
theorem emptyFilters_noFilterClause (cidrs : List String)
    (h : ∀ c ∈ cidrs, c = "") :
    filterClause cidrs = "" ∧
    buildResourceGraphQuery cidrs = queryHeader ++ queryFooter := by
  have hl := lowerList_nil_of_empty cidrs h
  have hfc : filterClause cidrs = "" := by
    unfold filterClause clauses exactMatches wildcardMatches
    rw [hl]
    simp
  refine ⟨hfc, ?_⟩
  unfold buildResourceGraphQuery
  rw [hfc]
  apply String.ext
  simp [String.data_append]

/-- Witness for C6 at the concrete input `[""]`. -/
theorem emptyFilters_noFilterClause_witness :
    filterClause [""] = "" ∧
    buildResourceGraphQuery [""] = queryHeader ++ queryFooter :=
  emptyFilters_noFilterClause [""] (by decide)

/-! ## C7: collectColumns -/

theorem mem_insertKey (acc : List String) (k x : String) :
    x ∈ insertKey acc k ↔ x ∈ acc ∨ x = k := by
  unfold insertKey
  split
  · next h =>
    constructor
    · exact Or.inl
    · rintro (hx | rfl)
      · exact hx
      · exact h
  · simp

theorem mem_foldl_insertKey (l : List String) :
    ∀ (acc : List String) (x : String),
      x ∈ l.foldl insertKey acc ↔ x ∈ acc ∨ x ∈ l := by
  induction l with
  | nil => simp
  | cons k t ih =>
    intro acc x
    rw [List.foldl_cons, ih, mem_insertKey]
    simp only [List.mem_cons]
    tauto

theorem nodup_insertKey (acc : List String) (k : String) (h : acc.Nodup) :
    (insertKey acc k).Nodup := by
  unfold insertKey
  split
  · exact h
  · next hk =>
    rw [List.nodup_append]
    exact ⟨h, List.nodup_singleton k, by simpa using hk⟩

theorem nodup_foldl_insertKey (l : List String) :
    ∀ acc : List String, acc.Nodup → (l.foldl insertKey acc).Nodup := by
  induction l with
  | nil => intro acc h; exact h
  | cons k t ih =>
    intro acc h
    rw [List.foldl_cons]
    exact ih _ (nodup_insertKey acc k h)

theorem mem_collectKeys (rows : List Row) (x : String) :
    x ∈ collectKeys rows ↔ ∃ r ∈ rows, x ∈ rowKeys r := by
  have haux : ∀ (rs : List Row) (acc : List String),
      x ∈ rs.foldl (fun acc r => (rowKeys r).foldl insertKey acc) acc ↔
        x ∈ acc ∨ ∃ r ∈ rs, x ∈ rowKeys r := by
    intro rs
    induction rs with
    | nil => simp
    | cons r t ih =>
      intro acc
      rw [List.foldl_cons, ih, mem_foldl_insertKey]
      simp only [List.mem_cons]
      constructor
      · rintro ((hx | hx) | ⟨r', hr', hx⟩)
        · exact Or.inl hx
        · exact Or.inr ⟨r, Or.inl rfl, hx⟩
        · exact Or.inr ⟨r', Or.inr hr', hx⟩
      · rintro (hx | ⟨r', (rfl | hr'), hx⟩)
        · exact Or.inl (Or.inl hx)
        · exact Or.inl (Or.inr hx)
        · exact Or.inr ⟨r', hr', hx⟩
  have := haux rows []
  simpa [collectKeys] using this

theorem nodup_collectKeys (rows : List Row) : (collectKeys rows).Nodup := by
  have haux : ∀ (rs : List Row) (acc : List String), acc.Nodup →
      (rs.foldl (fun acc r => (rowKeys r).foldl insertKey acc) acc).Nodup := by
    intro rs
    induction rs with
    | nil => intro acc h; exact h
    | cons r t ih =>
      intro acc h
      rw [List.foldl_cons]
      exact ih _ (nodup_foldl_insertKey _ acc h)
  exact haux rows [] List.nodup_nil

theorem charsLe_total : ∀ a b : List Char, charsLe a b = true ∨ charsLe b a = true := by
  intro a
  induction a with
  | nil => intro b; exact Or.inl rfl
  | cons x xs ih =>
    intro b
    cases b with
    | nil => exact Or.inr rfl
    | cons y ys =>
      simp only [charsLe]
      rcases Nat.lt_trichotomy x.toNat y.toNat with h | h | h
      · left; rw [if_pos h]
      · have h1 : ¬ x.toNat < y.toNat := by omega
        have h2 : ¬ y.toNat < x.toNat := by omega
        rw [if_neg h1, if_neg h2, if_neg h2, if_neg h1]
        exact ih ys
      · right; rw [if_pos h]

theorem charsLe_trans : ∀ a b c : List Char,
    charsLe a b = true → charsLe b c = true → charsLe a c = true := by
  intro a
  induction a with
  | nil => intro b c _ _; rfl
  | cons x xs ih =>
    intro b c hab hbc
    cases b with
    | nil => simp [charsLe] at hab
    | cons y ys =>
      cases c with
      | nil => simp [charsLe] at hbc
      | cons z zs =>
        simp only [charsLe] at hab hbc ⊢
        rcases Nat.lt_trichotomy x.toNat y.toNat with hxy | hxy | hxy <;>
          rcases Nat.lt_trichotomy y.toNat z.toNat with hyz | hyz | hyz
        all_goals
          first
          | (rw [if_pos (by omega : x.toNat < z.toNat)])
          | (have h1 : ¬ x.toNat < z.toNat := by omega
             have h2 : ¬ z.toNat < x.toNat := by omega
             rw [if_neg h1, if_neg h2]
             rw [if_neg (by omega : ¬ x.toNat < y.toNat),
                 if_neg (by omega : ¬ y.toNat < x.toNat)] at hab
             rw [if_neg (by omega : ¬ y.toNat < z.toNat),
                 if_neg (by omega : ¬ z.toNat < y.toNat)] at hbc
             exact ih ys zs hab hbc)
          | (exfalso
             rw [if_neg (by omega : ¬ y.toNat < z.toNat)] at hbc
             rw [if_pos (by omega : z.toNat < y.toNat)] at hbc
             exact Bool.false_ne_true hbc)
          | (exfalso
             rw [if_neg (by omega : ¬ x.toNat < y.toNat)] at hab
             rw [if_pos (by omega : y.toNat < x.toNat)] at hab
             exact Bool.false_ne_true hab)

/-- C7: `collectColumns` returns the union of the keys of all rows,
without duplicates, sorted ascending; and on the spec's example it
returns `["a", "b", "c"]`. -/
theorem collectColumns_spec :
    (∀ rows : List Row,
      (collectColumns rows).Sorted (fun a b => strLe a b = true) ∧
      (collectColumns rows).Nodup ∧
      (∀ x, x ∈ collectColumns rows ↔ ∃ r ∈ rows, x ∈ rowKeys r)) ∧
    collectColumns
      [[("a", JValue.num "1"), ("b", JValue.num "2")],
       [("b", JValue.num "3"), ("c", JValue.num "4")]] = ["a", "b", "c"] := by
  constructor
  · intro rows
    have htot : IsTotal String (fun a b => strLe a b = true) :=
      ⟨fun a b => charsLe_total a.data b.data⟩
    have htrans : IsTrans String (fun a b => strLe a b = true) :=
      ⟨fun a b c => charsLe_trans a.data b.data c.data⟩
    refine ⟨@List.sorted_insertionSort String _ _ htot htrans _, ?_, ?_⟩
    · rw [collectColumns, (List.perm_insertionSort _ _).nodup_iff]
      exact nodup_collectKeys rows
    · intro x
      rw [collectColumns, (List.perm_insertionSort _ _).mem_iff]
      exact mem_collectKeys rows x
  · decide

/-! ## C1: query text and filter order -/

/-- C1 counterexample: `["a","b"]` and `["b","a"]` carry the same filter
set (their deduplicated lower-cased lists are permutations of each
other), yet the generated query texts differ. -/
theorem buildQuery_not_permutation_invariant :
    (lowerList ["a", "b"]).Perm (lowerList ["b", "a"]) ∧
    buildResourceGraphQuery ["a", "b"] ≠ buildResourceGraphQuery ["b", "a"] := by
  constructor
  · decide
  · decide

/-- C1 amended: the query text is a function of the deduplicated
lower-cased filter sequence in first-occurrence order, so it is invariant
under casing changes and duplication that preserve that sequence
(but not under arbitrary permutation). -/
theorem buildQuery_determined_by_lowerList (xs ys : List String)
    (h : lowerList xs = lowerList ys) :
    buildResourceGraphQuery xs = buildResourceGraphQuery ys := by
  unfold buildResourceGraphQuery filterClause clauses exactClause wildcardClause
    exactMatches wildcardMatches
  rw [h]

/-- Witness for the amended C1: `["A", "a", "b"]` and `["a", "B"]` have
the same deduplicated lower-cased sequence, hence the same query. -/
theorem buildQuery_determined_by_lowerList_witness :
    buildResourceGraphQuery ["A", "a", "b"] = buildResourceGraphQuery ["a", "B"] :=
  buildQuery_determined_by_lowerList ["A", "a", "b"] ["a", "B"] (by decide)

/-! ## C4: resolveSubscriptions -/

theorem char_eq_of_toNat_eq {a b : Char} (h : a.toNat = b.toNat) : a = b := by
  apply Char.ext
  have hv : a.val.toNat = b.val.toNat := h
  exact UInt32.toNat.inj hv

theorem jsMapGet_eq_reverse_find (k : String) (es : List (String × SubscriptionInfo)) :
    ∀ a : Option SubscriptionInfo,
      es.foldl (fun acc e => if e.1 = k then some e.2 else acc) a =
        match es.reverse.find? (fun e => e.1 = k) with
        | some e => some e.2
        | none => a := by
  induction es with
  | nil => intro a; rfl
  | cons e t ih =>
    intro a
    rw [List.foldl_cons, ih]
    rw [List.reverse_cons, List.find?_append]
    cases hl : t.reverse.find? (fun e => decide (e.1 = k)) with
    | some x => rfl
    | none =>
      by_cases he : e.1 = k
      · simp [List.find?_cons, he]
      · simp [List.find?_cons, he]

theorem jsMapGet_map (all : List SubscriptionInfo) (k : String) :
    jsMapGet (all.map (fun sub => (strToLower sub.id, sub))) k =
      all.reverse.find? (fun s => strToLower s.id = k) := by
  unfold jsMapGet
  rw [jsMapGet_eq_reverse_find]
  rw [← List.map_reverse, List.find?_map]
  cases hf : all.reverse.find? (fun s => decide (strToLower s.id = k)) with
  | some s =>
    have : (fun (e : String × SubscriptionInfo) => decide (e.1 = k)) ∘
        (fun sub => (strToLower sub.id, sub)) =
        fun s => decide (strToLower s.id = k) := rfl
    rw [this, hf]
    rfl
  | none =>
    have : (fun (e : String × SubscriptionInfo) => decide (e.1 = k)) ∘
        (fun sub => (strToLower sub.id, sub)) =
        fun s => decide (strToLower s.id = k) := rfl
    rw [this, hf]
    rfl

theorem resolveLoop_eq (byId : List (String × SubscriptionInfo)) :
    ∀ (req : List String) (seen : List String),
      resolveLoop byId seen req =
        (dedupByLower (req.filter (fun r => strToLower r ∉ seen))).map
          (fun raw => (jsMapGet byId (strToLower raw)).getD { id := raw, name := none }) := by
  intro req
  induction req with
  | nil => intro seen; simp [resolveLoop, dedupByLower]
  | cons raw t ih =>
    intro seen
    simp only [resolveLoop]
    by_cases hk : strToLower raw ∈ seen
    · rw [if_pos hk, List.filter_cons_of_neg (by simpa using hk)]
      exact ih seen
    · rw [if_neg hk, List.filter_cons_of_pos (by simpa using hk)]
      rw [dedupByLower, List.map_cons]
      have hfil : t.filter (fun r => decide (strToLower r ∉ strToLower raw :: seen)) =
          (t.filter (fun r => decide (strToLower r ∉ seen))).filter
            (fun x => decide (strToLower x ≠ strToLower raw)) := by
        rw [List.filter_filter]
        apply List.filter_congr
        intro x _
        by_cases h1 : strToLower x ∈ seen <;>
          by_cases h2 : strToLower x = strToLower raw <;>
            simp [h1, h2, List.mem_cons]
      rw [← hfil, ih (strToLower raw :: seen)]
      congr 1
      cases jsMapGet byId (strToLower raw) with
      | some m => rfl
      | none => rfl

/-- C4: `resolveSubscriptions` with an empty request returns the whole
catalog in order; with a non-empty request it returns one entry per
case-insensitively distinct requested id, in first-occurrence order,
taking the matching catalog entry when one exists (case-insensitive
comparison, catalog casing kept) and an id-only entry otherwise; and
every matched entry really is a catalog entry whose id matches the
request case-insensitively. -/
theorem resolveSubscriptions_spec (all : List SubscriptionInfo) (req : List String) :
    (resolveSubscriptionsPure all [] = all) ∧
    (req ≠ [] →
      resolveSubscriptionsPure all req =
        (dedupByLower req).map
          (fun raw => (catalogLookup all raw).getD { id := raw, name := none })) ∧
    (∀ raw s, catalogLookup all raw = some s →
      s ∈ all ∧ strToLower s.id = strToLower raw) := by
  refine ⟨rfl, ?_, ?_⟩
  · intro hreq
    unfold resolveSubscriptionsPure
    rw [if_neg (by simpa [List.isEmpty_iff] using hreq)]
    rw [resolveLoop_eq]
    have hfil : req.filter (fun r => decide (strToLower r ∉ ([] : List String))) = req := by
      rw [List.filter_eq_self]
      intro a _
      simp
    rw [hfil]
    apply List.map_congr_left
    intro raw _
    rw [jsMapGet_map]
    rfl
  · intro raw s hs
    unfold catalogLookup at hs
    have hp := List.find?_some hs
    have hm := List.mem_of_find?_eq_some hs
    rw [List.mem_reverse] at hm
    exact ⟨hm, of_decide_eq_true hp⟩

/-- Witness for C4 at a concrete catalog and request list. -/
theorem resolveSubscriptions_spec_witness :
    resolveSubscriptionsPure [⟨"sub-1", some "Prod"⟩] ["SUB-1", "unknown", "sub-1"] =
      (dedupByLower ["SUB-1", "unknown", "sub-1"]).map
        (fun raw =>
          (catalogLookup [⟨"sub-1", some "Prod"⟩] raw).getD { id := raw, name := none }) :=
  (resolveSubscriptions_spec [⟨"sub-1", some "Prod"⟩] ["SUB-1", "unknown", "sub-1"]).2.1
    (by decide)

/-! ## C5: exact-token membership clause -/

theorem strToLower_eq_empty_iff (c : String) : strToLower c = "" ↔ c = "" := by
  constructor
  · intro h
    have hd : (strToLower c).data = [] := by rw [h]
    have : c.data.map toLowerChar = [] := hd
    rw [List.map_eq_nil_iff] at this
    cases c
    simp_all
  · rintro rfl
    rfl

theorem toLowerChar_star_iff (c : Char) : toLowerChar c = '*' ↔ c = '*' := by
  constructor
  · intro h
    have hn : (toLowerChar c).toNat = 42 := by rw [h]; rfl
    rw [toNat_toLowerChar] at hn
    by_cases hc : 65 ≤ c.toNat ∧ c.toNat ≤ 90
    · rw [if_pos hc] at hn; omega
    · rw [if_neg hc] at hn
      exact char_eq_of_toNat_eq hn
  · rintro rfl
    rfl

theorem hasStar_strToLower (c : String) : hasStar (strToLower c) = hasStar c := by
  unfold hasStar strToLower
  show (c.data.map toLowerChar).any _ = _
  rw [List.any_map]
  have hfun : ((fun c => decide (c = '*')) ∘ toLowerChar) =
      (fun c => decide (c = '*')) := by
    funext x
    simp only [Function.comp]
    exact decide_eq_decide.mpr (toLowerChar_star_iff x)
  rw [hfun]

theorem mem_lowerList (cidrs : List String) (x : String) :
    x ∈ lowerList cidrs ↔ x ≠ "" ∧ ∃ c ∈ cidrs, strToLower c = x := by
  unfold lowerList
  rw [mem_dedupFirst, List.mem_filter]
  simp only [List.mem_map, decide_eq_true_eq]
  tauto

/-- C5: with only star-free filters, at least one of them non-empty, the
filter clause is a single `in~` membership predicate whose list holds
each distinct lower-cased non-empty token exactly once. -/
theorem exactOnly_singleMembership (cidrs : List String)
    (hstar : ∀ c ∈ cidrs, hasStar c = false)
    (hne : ∃ c ∈ cidrs, c ≠ "") :
    filterClause cidrs =
      "\n| where prefixStr in~ (" ++
        joinSep ", " ((lowerList cidrs).map quoteLit) ++ ")" ∧
    (lowerList cidrs).Nodup ∧
    (∀ x, x ∈ lowerList cidrs ↔ x ≠ "" ∧ ∃ c ∈ cidrs, strToLower c = x) := by
  have hnostar : ∀ x ∈ lowerList cidrs, hasStar x = false := by
    intro x hx
    obtain ⟨-, c, hc, rfl⟩ := (mem_lowerList cidrs x).mp hx
    rw [hasStar_strToLower]
    exact hstar c hc
  have hwild : wildcardMatches cidrs = [] := by
    unfold wildcardMatches
    rw [List.filter_eq_nil_iff]
    intro a ha
    simp [hnostar a ha]
  have hexact : exactMatches cidrs = lowerList cidrs := by
    unfold exactMatches
    rw [List.filter_eq_self]
    intro a ha
    simp [hnostar a ha]
  have hnonempty : lowerList cidrs ≠ [] := by
    obtain ⟨c, hc, hcne⟩ := hne
    apply List.ne_nil_of_mem (a := strToLower c)
    rw [mem_lowerList]
    exact ⟨fun hh => hcne ((strToLower_eq_empty_iff c).mp hh), c, hc, rfl⟩
  have hclauses : clauses cidrs = [exactClause cidrs] := by
    unfold clauses
    rw [hwild, hexact]
    rw [if_neg (by simpa [List.isEmpty_iff] using hnonempty)]
    simp
  refine ⟨?_, nodup_dedupFirst _, fun x => mem_lowerList cidrs x⟩
  unfold filterClause
  rw [hclauses]
  rw [if_neg (by simp)]
  show _ ++ joinSep " or " [exactClause cidrs] = _
  have hj : joinSep " or " [exactClause cidrs] = exactClause cidrs := rfl
  rw [hj]
  unfold exactClause
  rw [hexact]
  rw [← String.append_assoc]
  rfl

/-- Witness for C5 at the concrete input `["10.0.0.0/8", "10.0.0.0/8", "X"]`. -/
theorem exactOnly_singleMembership_witness :
    filterClause ["10.0.0.0/8", "10.0.0.0/8", "X"] =
      "\n| where prefixStr in~ (" ++
        joinSep ", " ((lowerList ["10.0.0.0/8", "10.0.0.0/8", "X"]).map quoteLit) ++ ")" ∧
    (lowerList ["10.0.0.0/8", "10.0.0.0/8", "X"]).Nodup ∧
    (∀ x, x ∈ lowerList ["10.0.0.0/8", "10.0.0.0/8", "X"] ↔
      x ≠ "" ∧ ∃ c ∈ ["10.0.0.0/8", "10.0.0.0/8", "X"], strToLower c = x) :=
  exactOnly_singleMembership ["10.0.0.0/8", "10.0.0.0/8", "X"]
    (by decide) (by decide)

/-! ## C9: export with no retained results -/

/-- C9: when no non-empty result set has been retained, the `exportCsv`
handler returns normally with exactly a warning notification and an
informational webview message, and performs no file write. -/
theorem exportNoResults (st : PanelState) (h : st.lastResults = []) :
    handleExport st =
      (st, [Effect.windowWarning "No results to export yet. Run a search first.",
            Effect.post (OutMsg.showInfo "Run a search to export results.")]) ∧
    ∀ e ∈ (handleExport st).2,
      ∀ mn bn content hd, e ≠ Effect.writeCsv mn bn content hd := by
  have h1 : handleExport st =
      (st, [Effect.windowWarning "No results to export yet. Run a search first.",
            Effect.post (OutMsg.showInfo "Run a search to export results.")]) := by
    unfold handleExport
    rw [h]
    rfl
  refine ⟨h1, ?_⟩
  rw [h1]
  intro e he mn bn content hd
  rcases he with _ | ⟨_, h2⟩
  · intro hcon; cases hcon
  · rcases h2 with _ | ⟨_, h3⟩
    · intro hcon; cases hcon
    · cases h3

/-- Witness for C9 at the empty panel state. -/
theorem exportNoResults_witness :
    handleExport ⟨[]⟩ =
      (⟨[]⟩, [Effect.windowWarning "No results to export yet. Run a search first.",
              Effect.post (OutMsg.showInfo "Run a search to export results.")]) :=
  (exportNoResults ⟨[]⟩ rfl).1

/-! ## C10: early lookup failure keeps the previous result set -/

/-- C10: if a lookup fails before any per-subscription query (blank
token, catalog failure, or empty resolved list), the retained
`lastResults` buffer is unchanged, so a subsequent `exportCsv` still
writes the previous result set. -/
theorem earlyFailurePreservesResults (st : PanelState) (cidrField : String)
    (subsField : Option (List String)) (cfgToken : String)
    (catalog : Except String (List SubscriptionInfo))
    (oracle : String → Except String (List Row))
    (h : trimStr cfgToken = "" ∨ (∃ e, catalog = Except.error e) ∨
         (∃ all, catalog = Except.ok all ∧
            resolveSubscriptionsPure all
              (((subsField.getD []).map trimStr).filter (fun x => x ≠ "")) = [])) :
    (handleLookup st cidrField subsField cfgToken catalog oracle).1 = st ∧
    (st.lastResults ≠ [] →
      handleExport (handleLookup st cidrField subsField cfgToken catalog oracle).1 =
        (st, [Effect.writeCsv "microsoft-azure-cidr-analyzer" "azure-cidr-results"
                (csvBody st.lastResults (collectColumns st.lastResults))
                (csvHeader (collectColumns st.lastResults) ++ "\n")])) := by
  have h1 : (handleLookup st cidrField subsField cfgToken catalog oracle).1 = st := by
    unfold handleLookup
    dsimp only
    by_cases ht : trimStr cfgToken = ""
    · rw [if_pos ht]
    · rw [if_neg ht]
      rcases h with htok | ⟨e, rfl⟩ | ⟨all, rfl, hres⟩
      · exact absurd htok ht
      · rfl
      · have hres' : resolveSubscriptionsPure all
            (((subsField.getD []).map trimStr).filter (fun x => !decide (x = ""))) = [] := by
          simpa using hres
        simp [hres']
  refine ⟨h1, fun hne => ?_⟩
  rw [h1]
  unfold handleExport
  rw [if_neg (by simpa [List.isEmpty_iff] using hne)]

/-- Witness for C10: a blank token aborts the lookup, the previous
single-row result set is kept, and export still writes it. -/
theorem earlyFailurePreservesResults_witness :
    (handleLookup ⟨[[("a", JValue.num "1")]]⟩ "10.0.0.0/24" none ""
        (Except.ok []) (fun _ => Except.error "x")).1 = ⟨[[("a", JValue.num "1")]]⟩ ∧
    handleExport (handleLookup ⟨[[("a", JValue.num "1")]]⟩ "10.0.0.0/24" none ""
        (Except.ok []) (fun _ => Except.error "x")).1 =
      (⟨[[("a", JValue.num "1")]]⟩,
       [Effect.writeCsv "microsoft-azure-cidr-analyzer" "azure-cidr-results"
          (csvBody [[("a", JValue.num "1")]] (collectColumns [[("a", JValue.num "1")]]))
          (csvHeader (collectColumns [[("a", JValue.num "1")]]) ++ "\n")]) := by
  have hmain := earlyFailurePreservesResults ⟨[[("a", JValue.num "1")]]⟩ "10.0.0.0/24"
    none "" (Except.ok []) (fun _ => Except.error "x") (Or.inl rfl)
  exact ⟨hmain.1, hmain.2 (List.cons_ne_nil _ _)⟩

/-! ## C2: per-subscription failure isolation -/

theorem runSubs_fst (oracle : String → Except String (List Row)) :
    ∀ l : List SubscriptionInfo,
      (runSubs oracle l).1 = (l.map (subEvents oracle)).flatten := by
  intro l
  induction l with
  | nil => rfl
  | cons s t ih => simp [runSubs, ih]

theorem runSubs_snd (oracle : String → Except String (List Row)) :
    ∀ l : List SubscriptionInfo,
      (runSubs oracle l).2 = (l.map (fun s => okRows (oracle s.id))).flatten := by
  intro l
  induction l with
  | nil => rfl
  | cons s t ih => simp [runSubs, ih]

theorem countP_flatten_map (q : OutMsg → Bool) (f : SubscriptionInfo → List OutMsg) :
    ∀ l : List SubscriptionInfo,
      ((l.map f).flatten).countP q = (l.map (fun s => (f s).countP q)).sum := by
  intro l
  induction l with
  | nil => rfl
  | cons s t ih => simp [List.countP_append, ih]

theorem sum_countP_single (q : OutMsg → Bool) (f : SubscriptionInfo → List OutMsg) :
    ∀ (l : List SubscriptionInfo) (sub : SubscriptionInfo) (k : Nat),
      sub ∈ l → (l.map SubscriptionInfo.id).Nodup →
      (∀ s ∈ l, s.id ≠ sub.id → (f s).countP q = 0) →
      (f sub).countP q = k →
      (l.map (fun s => (f s).countP q)).sum = k := by
  intro l
  induction l with
  | nil => intro sub k hmem; cases hmem
  | cons s t ih =>
    intro sub k hmem hnodup h0 hk
    rw [List.map_cons, List.nodup_cons] at hnodup
    rw [List.map_cons, List.sum_cons]
    rcases List.mem_cons.mp hmem with rfl | hmem'
    · have htail : (t.map (fun s' => (f s').countP q)).sum = 0 := by
        apply List.sum_eq_zero
        intro x hx
        rw [List.mem_map] at hx
        obtain ⟨s', hs', rfl⟩ := hx
        apply h0 s' (List.mem_cons_of_mem _ hs')
        intro heq
        exact hnodup.1 (heq ▸ List.mem_map_of_mem SubscriptionInfo.id hs')
      rw [hk, htail]
      omega
    · have hs0 : (f s).countP q = 0 := by
        apply h0 s (List.mem_cons_self _ _)
        intro heq
        exact hnodup.1 (heq ▸ List.mem_map_of_mem SubscriptionInfo.id hmem')
      rw [hs0, ih sub k hmem' hnodup.2
        (fun s' hs' => h0 s' (List.mem_cons_of_mem _ hs')) hk]
      omega

theorem countP_flatten_single (q : OutMsg → Bool) (f : SubscriptionInfo → List OutMsg)
    (l : List SubscriptionInfo) (sub : SubscriptionInfo) (k : Nat)
    (hmem : sub ∈ l) (hnodup : (l.map SubscriptionInfo.id).Nodup)
    (h0 : ∀ s ∈ l, s.id ≠ sub.id → (f s).countP q = 0)
    (hk : (f sub).countP q = k) :
    ((l.map f).flatten).countP q = k := by
  rw [countP_flatten_map]
  exact sum_countP_single q f l sub k hmem hnodup h0 hk

theorem postedMsgs_map_post (l : List OutMsg) : postedMsgs (l.map Effect.post) = l := by
  induction l with
  | nil => rfl
  | cons m t ih => simp [postedMsgs, List.filterMap_cons] at ih ⊢; exact ih

theorem subEvents_error_count_ne (oracle : String → Except String (List Row))
    (s : SubscriptionInfo) (sid msg : String) (hid : s.id ≠ sid) :
    (subEvents oracle s).countP (isErrorFor sid msg) = 0 := by
  unfold subEvents
  cases oracle s.id <;> simp [List.countP_cons, isErrorFor, hid]

theorem subEvents_errorAny_count_ne (oracle : String → Except String (List Row))
    (s : SubscriptionInfo) (sid : String) (hid : s.id ≠ sid) :
    (subEvents oracle s).countP (isErrorAny sid) = 0 := by
  unfold subEvents
  cases oracle s.id <;> simp [List.countP_cons, isErrorAny, hid]

theorem subEvents_running_count_ne (oracle : String → Except String (List Row))
    (s : SubscriptionInfo) (sid : String) (hid : s.id ≠ sid) :
    (subEvents oracle s).countP (isRunningFor sid) = 0 := by
  unfold subEvents
  cases oracle s.id <;> simp [List.countP_cons, isRunningFor, hid]

theorem subEvents_done_count_ne (oracle : String → Except String (List Row))
    (s : SubscriptionInfo) (sid : String) (c : Nat) (hid : s.id ≠ sid) :
    (subEvents oracle s).countP (isDoneFor sid c) = 0 := by
  unfold subEvents
  cases oracle s.id <;> simp [List.countP_cons, isDoneFor, hid]

theorem subEvents_doneAny_count_ne (oracle : String → Except String (List Row))
    (s : SubscriptionInfo) (sid : String) (hid : s.id ≠ sid) :
    (subEvents oracle s).countP (isDoneAny sid) = 0 := by
  unfold subEvents
  cases oracle s.id <;> simp [List.countP_cons, isDoneAny, hid]

theorem subEvents_running_count_self (oracle : String → Except String (List Row))
    (s : SubscriptionInfo) :
    (subEvents oracle s).countP (isRunningFor s.id) = 1 := by
  unfold subEvents
  cases oracle s.id <;> simp [List.countP_cons, isRunningFor, isErrorFor, isDoneFor]

theorem filterMap_comp_post (evs : List OutMsg) :
    evs.filterMap
      ((fun e => match e with | Effect.post m => some m | _ => none) ∘ Effect.post) =
      evs := by
  induction evs with
  | nil => rfl
  | cons m t ih => simp only [List.filterMap_cons, Function.comp]; rw [ih]

theorem postedMsgs_lookup (a init : OutMsg) (evs : List OutMsg)
    (t1 t2 t3 : OutMsg) :
    postedMsgs (Effect.post a ::
        (Effect.post init :: evs.map Effect.post ++
          [Effect.post t1, Effect.post t2]) ++ [Effect.post t3]) =
      a :: init :: evs ++ [t1, t2, t3] := by
  simp [postedMsgs, List.filterMap_cons, List.filterMap_append, List.filterMap_map,
    filterMap_comp_post]

theorem countP_wrap (q : OutMsg → Bool) (a b : OutMsg) (evs : List OutMsg)
    (t1 t2 t3 : OutMsg) (ha : q a = false) (hb : q b = false)
    (h1 : q t1 = false) (h2 : q t2 = false) (h3 : q t3 = false) :
    (a :: b :: evs ++ [t1, t2, t3]).countP q = evs.countP q := by
  simp [List.countP_cons, List.countP_append, ha, hb, h1, h2, h3]

/-- C2: in a lookup whose resolution succeeded with the non-empty list
`subs` (with distinct ids), one subscription's query failure is isolated:
see `isolationSpec`. -/
theorem lookupFailureIsolated (st : PanelState) (cidrField : String)
    (subsField : Option (List String)) (cfgToken : String)
    (all subs : List SubscriptionInfo) (oracle : String → Except String (List Row))
    (sub : SubscriptionInfo) (m : String)
    (ht : trimStr cfgToken ≠ "")
    (hres : resolveSubscriptionsPure all
      (((subsField.getD []).map trimStr).filter (fun x => x ≠ "")) = subs)
    (hne : subs ≠ [])
    (hnodup : (subs.map SubscriptionInfo.id).Nodup)
    (hmem : sub ∈ subs)
    (hfail : oracle sub.id = Except.error m) :
    isolationSpec oracle subs sub m
      (handleLookup st cidrField subsField cfgToken (Except.ok all) oracle) := by
  have heq : handleLookup st cidrField subsField cfgToken (Except.ok all) oracle =
      ({ lastResults := (runSubs oracle subs).2 },
       Effect.post (OutMsg.setLoading true) ::
       (Effect.post (OutMsg.initSubscriptions
          (subs.map (fun sub => (sub.id, sub.name)))) ::
        (runSubs oracle subs).1.map Effect.post ++
        [Effect.post (OutMsg.displayResults (parseCidrList cidrField)
            (runSubs oracle subs).2 (collectColumns (runSubs oracle subs).2)),
         Effect.post (OutMsg.showInfo
            (summaryText (parseCidrList cidrField) (runSubs oracle subs).2))]) ++
       [Effect.post (OutMsg.setLoading false)]) := by
    unfold handleLookup
    dsimp only
    rw [if_neg ht, hres, if_neg (by simpa [List.isEmpty_iff] using hne)]
  rw [heq]
  rw [isolationSpec]
  rw [postedMsgs_lookup, runSubs_fst]
  dsimp only
  rw [runSubs_snd]
  refine ⟨?_, ?_, ?_, rfl, ?_, ?_⟩
  · rw [countP_wrap _ _ _ _ _ _ _ rfl rfl rfl rfl rfl]
    refine countP_flatten_single _ _ subs sub 1 hmem hnodup
      (fun s hs hid => subEvents_error_count_ne oracle s sub.id m hid) ?_
    simp [subEvents, hfail, List.countP_cons, isErrorFor]
  · rw [countP_wrap _ _ _ _ _ _ _ rfl rfl rfl rfl rfl]
    refine countP_flatten_single _ _ subs sub 1 hmem hnodup
      (fun s hs hid => subEvents_errorAny_count_ne oracle s sub.id hid) ?_
    simp [subEvents, hfail, List.countP_cons, isErrorAny]
  · intro s hs
    rw [countP_wrap _ _ _ _ _ _ _ rfl rfl rfl rfl rfl]
    exact countP_flatten_single _ _ subs s 1 hs hnodup
      (fun s' hs' hid => subEvents_running_count_ne oracle s' s.id hid)
      (subEvents_running_count_self oracle s)
  · refine ⟨parseCidrList cidrField,
      collectColumns ((subs.map (fun s => okRows (oracle s.id))).flatten), ?_⟩
    rw [← runSubs_snd]
    simp [List.mem_append, List.mem_cons]
  · intro s hs rows hrows
    constructor
    · rw [countP_wrap _ _ _ _ _ _ _ rfl rfl rfl rfl rfl]
      refine countP_flatten_single _ _ subs s 1 hs hnodup
        (fun s' hs' hid => subEvents_done_count_ne oracle s' s.id rows.length hid) ?_
      simp [subEvents, hrows, List.countP_cons, isDoneFor]
    · rw [countP_wrap _ _ _ _ _ _ _ rfl rfl rfl rfl rfl]
      refine countP_flatten_single _ _ subs s 1 hs hnodup
        (fun s' hs' hid => subEvents_doneAny_count_ne oracle s' s.id hid) ?_
      simp [subEvents, hrows, List.countP_cons, isDoneAny]

/-- Witness for C2: subscription `a` succeeds, `b` fails with `boom`. -/
theorem lookupFailureIsolated_witness :
    isolationSpec demoOracle demoCatalog ⟨"b", none⟩ "boom"
      (handleLookup ⟨[]⟩ "10.0.0.0/24" (some ["a", "b"]) "t"
        (Except.ok demoCatalog) demoOracle) :=
  lookupFailureIsolated ⟨[]⟩ "10.0.0.0/24" (some ["a", "b"]) "t"
    demoCatalog demoCatalog demoOracle ⟨"b", none⟩ "boom"
    (by decide) (by decide) (by decide) (by decide) (by decide) rfl

/-! ## C8: CSV rendering -/

theorem string_mk_data (s : String) : String.mk s.data = s := by
  cases s
  rfl

theorem csvCell_eq_quote (row : Row) (col : String) :
    csvCell row col = quoteField (cellRaw row col) := by
  unfold csvCell cellRaw
  cases rowGet row col with
  | none => decide
  | some v => cases v <;> rfl

theorem parseFieldBody_cons_ne (c : Char) (t : List Char) (hc : c ≠ '"') :
    parseFieldBody (c :: t) = (parseFieldBody t).map (fun r => (c :: r.1, r.2)) := by
  rw [parseFieldBody.eq_def]
  dsimp only
  rw [if_neg hc]

theorem parseFieldBody_two_quotes (t : List Char) :
    parseFieldBody ('"' :: '"' :: t) =
      (parseFieldBody t).map (fun r => ('"' :: r.1, r.2)) := by
  rw [parseFieldBody.eq_def]
  dsimp only
  rw [if_pos rfl, if_pos rfl]

theorem parseFieldBody_close (c2 : Char) (t2 : List Char) (hc2 : c2 ≠ '"') :
    parseFieldBody ('"' :: c2 :: t2) = some ([], c2 :: t2) := by
  rw [parseFieldBody.eq_def]
  dsimp only
  rw [if_pos rfl, if_neg hc2]

theorem parseFieldBody_roundtrip (s : List Char) :
    ∀ rest : List Char, rest.head? ≠ some '"' →
      parseFieldBody
        ((s.map (fun c => if c = '"' then ['"', '"'] else [c])).flatten ++
          '"' :: rest) = some (s, rest) := by
  induction s with
  | nil =>
    intro rest hrest
    show parseFieldBody ('"' :: rest) = some ([], rest)
    cases rest with
    | nil => rfl
    | cons c2 t2 =>
      have hc2 : c2 ≠ '"' := by
        intro h
        exact hrest (by rw [h]; rfl)
      exact parseFieldBody_close c2 t2 hc2
  | cons c cs ih =>
    intro rest hrest
    by_cases hc : c = '"'
    · subst hc
      show parseFieldBody ('"' :: '"' ::
        ((cs.map (fun c => if c = '"' then ['"', '"'] else [c])).flatten ++
          '"' :: rest)) = some ('"' :: cs, rest)
      rw [parseFieldBody_two_quotes, ih rest hrest]
      rfl
    · simp only [List.map_cons, List.flatten_cons, if_neg hc, List.cons_append,
        List.nil_append]
      rw [parseFieldBody_cons_ne c _ hc, ih rest hrest]
      rfl

theorem escDQ_data (s : String) :
    (escDQ s).data = (s.data.map (fun c => if c = '"' then ['"', '"'] else [c])).flatten :=
  rfl

theorem parseField_quoteField (s : String) (rest : List Char)
    (hrest : rest.head? ≠ some '"') :
    parseField ((quoteField s).data ++ rest) = some (s.data, rest) := by
  have hdata : (quoteField s).data ++ rest =
      '"' :: ((escDQ s).data ++ ('"' :: rest)) := by
    unfold quoteField
    simp [String.data_append, List.append_assoc]
  rw [hdata]
  show parseFieldBody ((escDQ s).data ++ '"' :: rest) = some (s.data, rest)
  rw [escDQ_data]
  exact parseFieldBody_roundtrip s.data rest hrest

theorem quoteField_length_ge (s : String) : 2 ≤ (quoteField s).length := by
  unfold quoteField
  rw [String.length_append, String.length_append]
  have : ("\"" : String).length = 1 := rfl
  omega

theorem joinSep_quote_length_ge (g : String → String) :
    ∀ cols : List String,
      cols.length ≤ (joinSep "," (cols.map (fun c => quoteField (g c)))).length := by
  intro cols
  induction cols with
  | nil => simp [joinSep]
  | cons c cs ih =>
    cases cs with
    | nil =>
      have := quoteField_length_ge (g c)
      simp only [List.map_cons, List.map_nil, joinSep, List.length_cons,
        List.length_nil]
      omega
    | cons c2 cs2 =>
      have h1 := quoteField_length_ge (g c)
      show (c :: c2 :: cs2).length ≤
        (quoteField (g c) ++ "," ++ joinSep "," ((c2 :: cs2).map (fun c => quoteField (g c)))).length
      rw [String.length_append, String.length_append]
      simp only [List.length_cons] at ih ⊢
      have : ("," : String).length = 1 := rfl
      omega

theorem parseLineAux_joinSep (g : String → String) :
    ∀ (cols : List String) (fuel : Nat), cols ≠ [] → cols.length ≤ fuel →
      parseLineAux fuel
          (joinSep "," (cols.map (fun c => quoteField (g c)))).data =
        some (cols.map (fun c => (g c).data)) := by
  intro cols
  induction cols with
  | nil => intro fuel h; exact absurd rfl h
  | cons c cs ih =>
    intro fuel hne hfuel
    obtain ⟨f, rfl⟩ : ∃ f, fuel = f + 1 :=
      ⟨fuel - 1, by simp only [List.length_cons] at hfuel; omega⟩
    cases cs with
    | nil =>
      show parseLineAux (f + 1) (quoteField (g c)).data = _
      rw [parseLineAux]
      have hp := parseField_quoteField (g c) [] (by simp)
      rw [List.append_nil] at hp
      rw [hp]
      rfl
    | cons c2 cs2 =>
      have hfuel' : (c2 :: cs2).length ≤ f := by
        simp only [List.length_cons] at hfuel ⊢
        omega
      have hsplit : (joinSep "," ((c :: c2 :: cs2).map (fun c => quoteField (g c)))).data =
          (quoteField (g c)).data ++
            (',' :: (joinSep "," ((c2 :: cs2).map (fun c => quoteField (g c)))).data) := by
        show (quoteField (g c) ++ "," ++ _).data = _
        rw [String.data_append, String.data_append]
        simp [List.append_assoc]
      rw [parseLineAux, hsplit, parseField_quoteField _ _ (by simp)]
      have hrec := ih f (by simp) hfuel'
      simp only [List.map_cons] at hrec ⊢
      rw [hrec]
      rfl

theorem csvLine_as_joinSep (row : Row) (cols : List String) :
    csvLine row cols = joinSep "," (cols.map (fun c => quoteField (cellRaw row c))) := by
  unfold csvLine
  congr 1
  apply List.map_congr_left
  intro c _
  exact csvCell_eq_quote row c

theorem parseCsvLine_joinSep (g : String → String) (cols : List String)
    (hne : cols ≠ []) :
    parseCsvLine (joinSep "," (cols.map (fun c => quoteField (g c)))) =
      some (cols.map g) := by
  unfold parseCsvLine
  rw [parseLineAux_joinSep g cols _ hne]
  · rw [Option.map_some']
    rw [List.map_map]
    exact congrArg some (List.map_congr_left (fun c _ => string_mk_data (g c)))
  · calc cols.length ≤ (joinSep "," (cols.map (fun c => quoteField (g c)))).length :=
          joinSep_quote_length_ge g cols
      _ ≤ _ + 1 := Nat.le_succ _

/-- C8: the rendered CSV has one quoted field per column, in column
order, one line per row in row order; a missing or `null` value renders
as the empty quoted field `""`; an object value is JSON-serialized
before quoting; and quotes are doubled exactly so that a standard CSV
parser decodes every line (and the header) back to the original
strings. -/
theorem csvRender_spec :
    (∀ (row : Row) (cols : List String), cols ≠ [] →
      parseCsvLine (csvLine row cols) = some (cols.map (cellRaw row))) ∧
    (∀ cols : List String, cols ≠ [] →
      parseCsvLine (csvHeader cols) = some cols) ∧
    (∀ (row : Row) (col : String), rowGet row col = none → csvCell row col = "\"\"") ∧
    (∀ (row : Row) (col : String) (fields : List (String × JValue)),
      rowGet row col = some (JValue.obj fields) →
      csvCell row col = quoteField (stringify (JValue.obj fields))) ∧
    (∀ (rows : List Row) (cols : List String),
      csvBody rows cols = joinSep "\n" (rows.map (fun r => csvLine r cols))) := by
  refine ⟨?_, ?_, ?_, ?_, fun rows cols => rfl⟩
  · intro row cols hne
    rw [csvLine_as_joinSep]
    exact parseCsvLine_joinSep (cellRaw row) cols hne
  · intro cols hne
    have h : csvHeader cols = joinSep "," (cols.map (fun c => quoteField (id c))) := rfl
    rw [h]
    have := parseCsvLine_joinSep id cols hne
    simpa using this
  · intro row col h
    unfold csvCell
    rw [h]
  · intro row col fields h
    unfold csvCell
    rw [h]

/-- Witness for C8: the spec's double-quote example round-trips. -/
theorem csvRender_spec_witness :
    parseCsvLine (csvLine [("msg", JValue.str "He said \"hi\"")] ["msg"]) =
      some (["msg"].map (cellRaw [("msg", JValue.str "He said \"hi\"")])) ∧
    ["msg"].map (cellRaw [("msg", JValue.str "He said \"hi\"")]) = ["He said \"hi\""] :=
  ⟨csvRender_spec.1 [("msg", JValue.str "He said \"hi\"")] ["msg"] (by decide),
   by decide⟩

/-! ## C3: wildcard-to-regex translation -/

theorem replAllAux_nil (p : Char) (ps rep : List Char) :
    replAllAux p ps rep [] = [] := by
  rw [replAllAux.eq_def]

theorem replAllAux_cons (p : Char) (ps rep : List Char) (c : Char) (t : List Char) :
    replAllAux p ps rep (c :: t) =
      if listStartsWith (p :: ps) (c :: t) then
        rep ++ replAllAux p ps rep (t.drop ps.length)
      else c :: replAllAux p ps rep t := by
  rw [replAllAux.eq_def]

theorem startsWith_cons_ne (p c : Char) (ps t : List Char) (h : p ≠ c) :
    listStartsWith (p :: ps) (c :: t) = false := by
  simp [listStartsWith, h]

theorem startsWith_self_append (q : List Char) : ∀ r : List Char,
    listStartsWith q (q ++ r) = true := by
  induction q with
  | nil => intro r; rfl
  | cons c t ih => intro r; simp [listStartsWith, ih]

theorem escSeg_placeholder :
    (placeholderStr.data.map escSeg).flatten = placeholderStr.data := by
  decide

theorem escaped_data (v : String) :
    (escapeMeta (starToPlaceholder v)).data = (v.data.map wcSeg).flatten := by
  show (((v.data.map fun c =>
      if c = '*' then placeholderStr.data else [c]).flatten).map escSeg).flatten = _
  rw [List.map_flatten, List.flatten_flatten, List.map_map, List.map_map]
  apply congrArg
  apply List.map_congr_left
  intro c _
  simp only [Function.comp]
  by_cases hc : c = '*'
  · rw [if_pos hc, wcSeg, if_pos hc]
    exact escSeg_placeholder
  · rw [if_neg hc, wcSeg, if_neg hc]
    simp

theorem wcSeg_noW (l : List Char) (H : ∀ c ∈ l, c ≠ 'W') (w : List Char) :
    listStartsWith ('W' :: w) ((l.map wcSeg).flatten) = false := by
  cases l with
  | nil => rfl
  | cons c t =>
    rw [List.map_cons, List.flatten_cons]
    by_cases hc : c = '*'
    · rw [wcSeg, if_pos hc]
      show listStartsWith ('W' :: w) ('_' :: _) = false
      exact startsWith_cons_ne _ _ _ _ (by decide)
    · rw [wcSeg, if_neg hc, escSeg]
      by_cases hm : c ∈ metaChars
      · rw [if_pos hm]
        exact startsWith_cons_ne _ _ _ _ (by decide)
      · rw [if_neg hm]
        exact startsWith_cons_ne _ _ _ _ (fun he => H c (List.mem_cons_self c t) he.symm)

theorem wcSeg_noUW (l : List Char) (H : ∀ c ∈ l, c ≠ 'W') (w : List Char) :
    listStartsWith ('_' :: 'W' :: w) ((l.map wcSeg).flatten) = false := by
  cases l with
  | nil => rfl
  | cons c t =>
    rw [List.map_cons, List.flatten_cons]
    by_cases hc : c = '*'
    · rw [wcSeg, if_pos hc]
      show listStartsWith ('_' :: 'W' :: w) ('_' :: '_' :: _) = false
      simp [listStartsWith]
    · rw [wcSeg, if_neg hc, escSeg]
      by_cases hm : c ∈ metaChars
      · rw [if_pos hm]
        exact startsWith_cons_ne _ _ _ _ (by decide)
      · rw [if_neg hm]
        by_cases hu : c = '_'
        · subst hu
          show listStartsWith ('_' :: 'W' :: w) ('_' :: _) = false
          have hrec := wcSeg_noW t (fun c hcm => H c (List.mem_cons_of_mem _ hcm)) w
          simp [listStartsWith, hrec]
        · exact startsWith_cons_ne _ _ _ _ (fun he => hu he.symm)

theorem replAll_wcSeg (l : List Char) (H : ∀ c ∈ l, c ≠ 'W') :
    replAllAux '_' ['_', 'W', 'I', 'L', 'D', 'C', 'A', 'R', 'D', '_', '_'] ['.', '*']
        ((l.map wcSeg).flatten) = (l.map wcMid).flatten := by
  induction l with
  | nil => simp [replAllAux_nil]
  | cons c t ih =>
    have Ht : ∀ c ∈ t, c ≠ 'W' := fun c hc => H c (List.mem_cons_of_mem _ hc)
    rw [List.map_cons, List.flatten_cons, List.map_cons, List.flatten_cons]
    by_cases hc : c = '*'
    · rw [wcSeg, if_pos hc, wcMid, if_pos hc]
      show replAllAux '_' ['_', 'W', 'I', 'L', 'D', 'C', 'A', 'R', 'D', '_', '_'] ['.', '*']
        ('_' :: (['_', 'W', 'I', 'L', 'D', 'C', 'A', 'R', 'D', '_', '_'] ++
          (t.map wcSeg).flatten)) = _
      rw [replAllAux_cons]
      have hsw := startsWith_self_append
        ('_' :: ['_', 'W', 'I', 'L', 'D', 'C', 'A', 'R', 'D', '_', '_'])
        ((t.map wcSeg).flatten)
      rw [List.cons_append] at hsw
      rw [if_pos hsw, List.drop_left, ih Ht]
    · by_cases hm : c ∈ metaChars
      · rw [wcSeg, if_neg hc, wcMid, if_neg hc, escSeg, if_pos hm]
        show replAllAux '_' ['_', 'W', 'I', 'L', 'D', 'C', 'A', 'R', 'D', '_', '_'] ['.', '*']
          ('\\' :: c :: (t.map wcSeg).flatten) = '\\' :: c :: (t.map wcMid).flatten
        have hcu : c ≠ '_' := fun he => (by decide : ('_' : Char) ∉ metaChars) (he ▸ hm)
        rw [replAllAux_cons,
          if_neg (by simp [startsWith_cons_ne '_' '\\' _ _ (by decide)])]
        rw [replAllAux_cons,
          if_neg (by simp [startsWith_cons_ne '_' c _ _ (fun he => hcu he.symm)])]
        rw [ih Ht]
      · rw [wcSeg, if_neg hc, wcMid, if_neg hc, escSeg, if_neg hm]
        show replAllAux '_' ['_', 'W', 'I', 'L', 'D', 'C', 'A', 'R', 'D', '_', '_'] ['.', '*']
          (c :: (t.map wcSeg).flatten) = c :: (t.map wcMid).flatten
        by_cases hu : c = '_'
        · subst hu
          rw [replAllAux_cons]
          have hsw : listStartsWith
              ('_' :: ['_', 'W', 'I', 'L', 'D', 'C', 'A', 'R', 'D', '_', '_'])
              ('_' :: (t.map wcSeg).flatten) = false := by
            have hrec := wcSeg_noUW t Ht ['I', 'L', 'D', 'C', 'A', 'R', 'D', '_', '_']
            simp [listStartsWith, hrec]
          rw [if_neg (by simp [hsw]), ih Ht]
        · rw [replAllAux_cons,
            if_neg (by simp [startsWith_cons_ne '_' c _ _ (fun he => hu he.symm)])]
          rw [ih Ht]

theorem q_wcMid (c : Char) :
    ((wcMid c).map (fun c => if c = sq then ['\\', sq] else [c])).flatten =
      wcSpecChar c := by
  by_cases h1 : c = '*'
  · subst h1
    decide
  · by_cases h2 : c ∈ metaChars
    · have hsq : c ≠ sq := fun he => (by decide : sq ∉ metaChars) (he ▸ h2)
      rw [wcMid, if_neg h1, escSeg, if_pos h2, wcSpecChar.eq_def]
      rw [if_neg h1, if_pos h2]
      simp [hsq, (by decide : ('\\' : Char) ≠ sq)]
    · by_cases h3 : c = sq
      · subst h3
        decide
      · rw [wcMid, if_neg h1, escSeg, if_neg h2, wcSpecChar.eq_def]
        rw [if_neg h1, if_neg h2, if_neg h3]
        simp [h3]

theorem toRegex_lower (v : String) (H : ∀ c ∈ v.data, c ≠ 'W') :
    toRegex v = specWildcardRegex v := by
  have h1 : (replAllStr placeholderStr ".*" (escapeMeta (starToPlaceholder v))).data
      = (v.data.map wcMid).flatten := by
    show replAllAux '_' ['_', 'W', 'I', 'L', 'D', 'C', 'A', 'R', 'D', '_', '_']
        ['.', '*'] (escapeMeta (starToPlaceholder v)).data = _
    rw [escaped_data]
    exact replAll_wcSeg v.data H
  apply String.ext
  show (String.mk [sq] ++
      escQuote ("^" ++ replAllStr placeholderStr ".*" (escapeMeta (starToPlaceholder v)) ++ "$") ++
      String.mk [sq]).data = (specWildcardRegex v).data
  rw [String.data_append, String.data_append]
  have h2 : ("^" ++ replAllStr placeholderStr ".*" (escapeMeta (starToPlaceholder v)) ++
      "$").data = '^' :: ((v.data.map wcMid).flatten ++ ['$']) := by
    rw [String.data_append, String.data_append, h1]
    rfl
  show [sq] ++ ((("^" ++ replAllStr placeholderStr ".*" (escapeMeta (starToPlaceholder v)) ++
      "$").data).map (fun c => if c = sq then ['\\', sq] else [c])).flatten ++ [sq] = _
  rw [h2]
  rw [List.map_cons, List.map_append, List.flatten_cons, List.flatten_append]
  have hmid : ((((v.data.map wcMid).flatten).map
      (fun c => if c = sq then ['\\', sq] else [c]))).flatten =
      (v.data.map wcSpecChar).flatten := by
    rw [List.map_flatten, List.flatten_flatten, List.map_map, List.map_map]
    apply congrArg
    apply List.map_congr_left
    intro c _
    simp only [Function.comp]
    exact q_wcMid c
  rw [hmid]
  have e1 : (if ('^' : Char) = sq then ['\\', sq] else ['^']) = ['^'] := by decide
  have e2 : (List.map (fun c => if c = sq then ['\\', sq] else [c]) ['$']).flatten =
      ['$'] := by decide
  rw [e1, e2]
  simp [specWildcardRegex, List.append_assoc]

theorem lowerList_noW (cidrs : List String) (v : String)
    (hv : v ∈ lowerList cidrs) : ∀ c ∈ v.data, c ≠ 'W' := by
  obtain ⟨-, c0, -, rfl⟩ := (mem_lowerList cidrs v).mp hv
  intro c hc
  have hc' : c ∈ c0.data.map toLowerChar := hc
  rw [List.mem_map] at hc'
  obtain ⟨x, -, rfl⟩ := hc'
  exact toLowerChar_ne_of_upper x 'W' (by decide)

/-- C3: the wildcard clause of the generated query is the ` or `-join,
over the (lower-cased, deduplicated) filters containing a `*`, of
anchored regex predicates in which each `*` became `.*` and every other
regex metacharacter (and the quote) is backslash-escaped — the
per-character translation `wcSpecChar` wrapped in `'^...$'` by
`specWildcardRegex`. -/
theorem wildcardClause_spec (cidrs : List String) :
    wildcardClause cidrs =
      joinSep " or " ((wildcardMatches cidrs).map
        (fun v => "prefixStr matches regex " ++ specWildcardRegex v)) := by
  unfold wildcardClause
  congr 1
  apply List.map_congr_left
  intro v hv
  have hvl : v ∈ lowerList cidrs := (List.mem_filter.mp hv).1
  rw [toRegex_lower v (lowerList_noW cidrs v hvl)]

end AzureCidr
